import Mathlib

/-!
Shallow embedding of `src/main.rs` of `rust_url_getter`.

The program probes candidate URLs `template.replace("{uid}", uid).replace("{qnum}", qnum)`
for `uid` in `UID_START..UID_END` and `qnum` in `start_qnum..=QUESTION_COUNT`,
with a `FuturesUnordered` window of at most `MAX_CONCURRENCY` in-flight probes,
a 429 retry loop (at most 3 retries, linear 15s backoff), a global `STOP_REQUESTED`
flag, and a lazily created `valid_urls.log` sink guarded by a mutex.

Modelling choices:
  * The cancellation flag is monotone: it is set at instant `stopAt` and stays set,
    so a read at instant `t` returns `stopAt ≤ t`.  Every observable step of the
    program (flag check, HTTP attempt, sleep, admission, delivery) advances the
    instant counter by one, so `stopAt` ranges over all interleavings of the
    signal handler with the program.
  * HTTP responses are an oracle `resp : Nat → HResp` giving the transport result
    of each attempt; the scheduler's oracle `res : Nat → Option String` gives the
    terminal result of the probe for each uid, and `pick : Nat → Nat` resolves the
    nondeterministic completion order of `FuturesUnordered` (the future delivered
    at an await is the one at index `pick clock % inflight.length`).
  * The probes inside `FuturesUnordered` are plain futures polled inline (not
    spawned tasks), so a probe's side effect (the sink append performed just
    before it returns `Some`) coincides with the delivery of its result; the
    model emits an `append` event exactly there.  Futures dropped by an early
    `return`/`break` never run again and never append.
  * Each run returns its event trace; the sink file is the fold of the appends
    (`Lazy<Mutex<File>>`: created on first use, then appended under the mutex).
-/

namespace UrlGetter

/-- `UID_START` from `src/main.rs`. -/
def UID_START : Nat := 10000

/-- `UID_END` from `src/main.rs`. -/
def UID_END : Nat := 80000

/-- `QUESTION_COUNT` from `src/main.rs`. -/
def QUESTION_COUNT : Nat := 300

/-- `MAX_CONCURRENCY` from `src/main.rs`. -/
def MAX_CONCURRENCY : Nat := 5

/-- Decimal digits of `n`, accumulator form of Rust's `u32::to_string`.
The fuel is always sufficient because `n + 1` bounds the number of digits. -/
def natDigitsAux : Nat → Nat → List Char → List Char
  | 0, _, acc => acc
  | fuel + 1, n, acc =>
    if n < 10 then Nat.digitChar n :: acc
    else natDigitsAux fuel (n / 10) (Nat.digitChar (n % 10) :: acc)

/-- Decimal rendering of `n`, as Rust's `u32::to_string` produces it. -/
def natDigits (n : Nat) : List Char :=
  natDigitsAux (n + 1) n []

/-- Rust's `str::replace` restricted to a nonempty pattern `p :: pt`:
replace every non-overlapping occurrence, scanning left to right. -/
def replaceAll (p : Char) (pt repl : List Char) : List Char → List Char
  | [] => []
  | c :: rest =>
    if (p :: pt).isPrefixOf (c :: rest) then
      repl ++ replaceAll p pt repl (rest.drop pt.length)
    else
      c :: replaceAll p pt repl rest
termination_by s => s.length
decreasing_by
  · simp only [List.length_cons, List.length_drop]
    omega
  · simp only [List.length_cons]
    omega

/-- The tail of the `"\x7buid\x7d"` placeholder after its opening brace. -/
def uidPat : List Char := ['u', 'i', 'd', '}']

/-- The tail of the `"\x7bqnum\x7d"` placeholder after its opening brace. -/
def qnumPat : List Char := ['q', 'n', 'u', 'm', '}']

/-- `base_template.replace("\x7buid\x7d", uid).replace("\x7bqnum\x7d", qnum)`
from `check_url`, on character lists. -/
def substituteChars (template : List Char) (uid qnum : Nat) : List Char :=
  replaceAll '{' qnumPat (natDigits qnum)
    (replaceAll '{' uidPat (natDigits uid) template)

/-- String form of the URL substitution performed by `check_url`. -/
def substitute (template : String) (uid qnum : Nat) : String :=
  ⟨substituteChars template.data uid qnum⟩

/-- Result of one HTTP send: a response with status code and resolved final
URL, or a transport error (connection failure, timeout, ...). -/
inductive HResp where
  | ok (status : Nat) (finalUrl : String)
  | err
deriving DecidableEq

/-- Observable steps of one probe (`check_url`), each stamped with the instant
at which it happens. -/
inductive PEvent where
  | checkFlag (t : Nat) (v : Bool)
  | sleepMs (t n : Nat)
  | sleepSec (t n : Nat)
  | attempt (t k : Nat)
  | append (t : Nat) (u : String)
deriving DecidableEq

/-- The retry loop of `check_url` (`src/main.rs` lines 63-116).  `k` is the
index of the next attempt, `retries` the current value of the retry counter,
`clock` the current instant.  Returns the value of the `async fn` together
with the trace of its observable steps. -/
def checkUrlLoop (stopAt : Nat) (resp : Nat → HResp) (url : String)
    (k retries clock : Nat) : Option String × List PEvent :=
  if stopAt ≤ clock then
    (none, [.checkFlag clock true])
  else
    match resp k with
    | .err =>
      (none, [.checkFlag clock false, .attempt (clock + 1) k])
    | .ok status finalUrl =>
      if status = 429 then
        if h : retries + 1 > 3 then
          (none, [.checkFlag clock false, .attempt (clock + 1) k])
        else
          let r := checkUrlLoop stopAt resp url (k + 1) (retries + 1) (clock + 3)
          (r.1, .checkFlag clock false :: .attempt (clock + 1) k ::
            .sleepSec (clock + 2) (15 * (retries + 1)) :: r.2)
      else if status = 200 ∧ finalUrl = url then
        (some url, [.checkFlag clock false, .attempt (clock + 1) k,
          .append (clock + 2) url])
      else
        (none, [.checkFlag clock false, .attempt (clock + 1) k])
termination_by 3 - retries
decreasing_by omega

/-- `check_url` (`src/main.rs` lines 46-117): entry cancellation check, URL
substitution, random pre-request jitter sleep, then the retry loop.  The
jitter duration is an oracle argument (its value does not affect control
flow); the random User-Agent choice has no observable effect and is omitted. -/
def checkUrl (stopAt : Nat) (resp : Nat → HResp) (jitter : Nat)
    (template : String) (uid qnum clock : Nat) : Option String × List PEvent :=
  if stopAt ≤ clock then
    (none, [.checkFlag clock true])
  else
    let url := substitute template uid qnum
    let r := checkUrlLoop stopAt resp url 0 0 (clock + 2)
    (r.1, .checkFlag clock false :: .sleepMs (clock + 1) jitter :: r.2)

/-- Observable steps of the scheduler (`find_valid_url_for_question`) and the
outer driver.  `admit t uid after`: a probe for `uid` is pushed, `after` being
the number of in-flight probes just after the push.  `deliver t uid r after`:
`futures.next().await` returns probe `uid`'s result `r`, `after` in-flight
remain.  `append t u`: the delivered probe appended `u` to the sink just
before completing. -/
inductive SEvent where
  | checkFlag (t : Nat) (v : Bool)
  | push (t uid after : Nat)
  | deliver (t uid : Nat) (r : Option String) (after : Nat)
  | append (t : Nat) (u : String)
deriving DecidableEq

/-- How `find_valid_url_for_question` returns: a found URL (early `return`),
normal exhaustion of the drain loop, or the `break` on the stop flag in the
drain loop, which drops the listed in-flight probes without running them. -/
inductive SOutcome where
  | found (u : String)
  | exhausted
  | cancelled (dropped : List Nat)
deriving DecidableEq

/-- Result of the admission-gate loop `while futures.len() >= MAX_CONCURRENCY`
(`src/main.rs` lines 128-134): either a found result returns from the whole
function, or the in-flight set has dropped below the limit. -/
inductive AwaitRes where
  | stop (u : String) (events : List SEvent) (clock : Nat)
  | go (inflight : List Nat) (events : List SEvent) (clock : Nat)
deriving DecidableEq

/-- The admission gate: await deliveries while the in-flight count is at the
limit; a `Some` delivery returns from the whole scheduler.  No cancellation
check occurs in this loop.  A delivered `Some` is preceded by the sink append
its probe performed just before completing. -/
def awaitBelow (res : Nat → Option String) (pick : Nat → Nat)
    (inflight : List Nat) (clock : Nat) : AwaitRes :=
  if h : MAX_CONCURRENCY ≤ inflight.length then
    match res (inflight.getD (pick clock % inflight.length) 0) with
    | some u =>
      .stop u
        [.append clock u,
         .deliver (clock + 1) (inflight.getD (pick clock % inflight.length) 0)
           (some u) (inflight.eraseIdx (pick clock % inflight.length)).length]
        (clock + 2)
    | none =>
      match awaitBelow res pick
          (inflight.eraseIdx (pick clock % inflight.length)) (clock + 1) with
      | .stop u evs c =>
        .stop u
          (.deliver clock (inflight.getD (pick clock % inflight.length) 0) none
            (inflight.eraseIdx (pick clock % inflight.length)).length :: evs) c
      | .go l evs c =>
        .go l
          (.deliver clock (inflight.getD (pick clock % inflight.length) 0) none
            (inflight.eraseIdx (pick clock % inflight.length)).length :: evs) c
  else
    .go inflight [] clock
termination_by inflight.length
decreasing_by
  all_goals
    have h0 : 0 < inflight.length := by
      have h5 : (5 : Nat) ≤ inflight.length := h
      omega
    have hlen : pick clock % inflight.length < inflight.length :=
      Nat.mod_lt _ h0
    have := List.length_eraseIdx_add_one hlen
    omega

/-- The drain loop `while let Some(res) = futures.next().await` (`src/main.rs`
lines 139-146): after each delivery the stop flag is checked and, if set, the
loop `break`s, dropping the remaining in-flight probes; otherwise a `Some`
result returns from the scheduler. -/
def drainLoop (stopAt : Nat) (res : Nat → Option String) (pick : Nat → Nat)
    (inflight : List Nat) (clock : Nat) : SOutcome × List SEvent × Nat :=
  if h : inflight.length = 0 then
    (.exhausted, [], clock)
  else
    match res (inflight.getD (pick clock % inflight.length) 0) with
    | some u =>
      if stopAt ≤ clock + 2 then
        (.cancelled (inflight.eraseIdx (pick clock % inflight.length)),
          [.append clock u,
           .deliver (clock + 1) (inflight.getD (pick clock % inflight.length) 0)
             (some u) (inflight.eraseIdx (pick clock % inflight.length)).length,
           .checkFlag (clock + 2) true], clock + 3)
      else
        (.found u,
          [.append clock u,
           .deliver (clock + 1) (inflight.getD (pick clock % inflight.length) 0)
             (some u) (inflight.eraseIdx (pick clock % inflight.length)).length,
           .checkFlag (clock + 2) false], clock + 3)
    | none =>
      if stopAt ≤ clock + 1 then
        (.cancelled (inflight.eraseIdx (pick clock % inflight.length)),
          [.deliver clock (inflight.getD (pick clock % inflight.length) 0) none
             (inflight.eraseIdx (pick clock % inflight.length)).length,
           .checkFlag (clock + 1) true], clock + 2)
      else
        let r := drainLoop stopAt res pick
          (inflight.eraseIdx (pick clock % inflight.length)) (clock + 2)
        (r.1,
          .deliver clock (inflight.getD (pick clock % inflight.length) 0) none
            (inflight.eraseIdx (pick clock % inflight.length)).length ::
          .checkFlag (clock + 1) false :: r.2.1, r.2.2)
termination_by inflight.length
decreasing_by
  have h0 : 0 < inflight.length := by omega
  have hlen : pick clock % inflight.length < inflight.length :=
    Nat.mod_lt _ h0
  have := List.length_eraseIdx_add_one hlen
  omega

/-- The admission loop `for uid in UID_START..UID_END` of
`find_valid_url_for_question` (`src/main.rs` lines 123-137): check the stop
flag (break to the drain loop if set), wait below the concurrency limit,
push the probe for the next uid. -/
def fill (stopAt : Nat) (res : Nat → Option String) (pick : Nat → Nat)
    (uid remaining : Nat) (inflight : List Nat) (clock : Nat) :
    SOutcome × List SEvent × Nat :=
  if hr : remaining = 0 then
    drainLoop stopAt res pick inflight clock
  else if stopAt ≤ clock then
    let r := drainLoop stopAt res pick inflight (clock + 1)
    (r.1, .checkFlag clock true :: r.2.1, r.2.2)
  else
    match awaitBelow res pick inflight (clock + 1) with
    | .stop u evs c =>
      (.found u, .checkFlag clock false :: evs, c)
    | .go inflight' evs c =>
      let r := fill stopAt res pick (uid + 1) (remaining - 1)
        (inflight' ++ [uid]) (c + 1)
      (r.1, .checkFlag clock false :: evs ++
        .push c uid (inflight'.length + 1) :: r.2.1, r.2.2)
termination_by remaining
decreasing_by omega

/-- `find_valid_url_for_question` (`src/main.rs` lines 120-147), with the
probe for each uid abstracted to its terminal result `res uid`. -/
def findValidUrlForQuestion (stopAt : Nat) (res : Nat → Option String)
    (pick : Nat → Nat) (clock : Nat) : SOutcome × List SEvent × Nat :=
  fill stopAt res pick UID_START (UID_END - UID_START) [] clock

/-- The outer driver loop `for qnum in start_qnum..=QUESTION_COUNT`
(`src/main.rs` lines 188-194): check the stop flag before each question,
then run the scheduler for that question. -/
def mainModel (stopAt : Nat) (res : Nat → Nat → Option String)
    (pick : Nat → Nat) : Nat → Nat → Nat → List SEvent × Nat
  | _, 0, clock => ([], clock)
  | qnum, remaining + 1, clock =>
    if stopAt ≤ clock then
      ([SEvent.checkFlag clock true], clock + 1)
    else
      let f := findValidUrlForQuestion stopAt (res qnum) pick (clock + 1)
      let m := mainModel stopAt res pick (qnum + 1) remaining f.2.2
      (SEvent.checkFlag clock false :: f.2.1 ++ m.1, m.2)

/-- A whole run of `main` after argument parsing: questions `startQnum`
through `QUESTION_COUNT`, starting with the stop flag unset-until-`stopAt`
and the log file not yet created. -/
def mainRun (stopAt : Nat) (res : Nat → Nat → Option String)
    (pick : Nat → Nat) (startQnum : Nat) : List SEvent × Nat :=
  mainModel stopAt res pick startQnum (QUESTION_COUNT + 1 - startQnum) 0

/-- One append to `VALID_LOGGER`: `Lazy<Mutex<File>>` means the first use
creates the file (`File::create` truncates) and writes the first line; later
uses only append. -/
def appendSink : Option (List String) → String → Option (List String)
  | none, u => some [u]
  | some l, u => some (l ++ [u])

/-- URLs appended to the sink during a trace, in order. -/
def appendedUrls (tr : List SEvent) : List String :=
  tr.filterMap fun e =>
    match e with
    | .append _ u => some u
    | _ => none

/-- State of the `valid_urls.log` file after a trace: `none` if it was never
created, otherwise its lines. -/
def sinkAfter (tr : List SEvent) : Option (List String) :=
  (appendedUrls tr).foldl appendSink none

/-- Uids admitted (pushed into `FuturesUnordered`) during a trace. -/
def admittedUids (tr : List SEvent) : List Nat :=
  tr.filterMap fun e =>
    match e with
    | .push _ u _ => some u
    | _ => none

/-- Uids whose probe result was delivered by `futures.next().await`. -/
def deliveredUids (tr : List SEvent) : List Nat :=
  tr.filterMap fun e =>
    match e with
    | .deliver _ u _ _ => some u
    | _ => none

/-- In-flight count recorded by an event (0 for events that do not change
the in-flight set). -/
def SEvent.countAfter : SEvent → Nat
  | .push _ _ a => a
  | .deliver _ _ _ a => a
  | _ => 0

/-- Every event of the trace respects the concurrency ceiling. -/
def underLimit (tr : List SEvent) : Bool :=
  tr.all fun e => decide (e.countAfter ≤ MAX_CONCURRENCY)

/-- URLs appended to the sink by one probe, in order. -/
def probeAppends (tr : List PEvent) : List String :=
  tr.filterMap fun e =>
    match e with
    | .append _ u => some u
    | _ => none

/-- Every `attempt` in a probe trace is immediately preceded by a cancellation
check that read `false`. -/
def attemptsGuarded : List PEvent → Bool
  | [] => true
  | .checkFlag _ false :: .attempt _ _ :: rest => attemptsGuarded rest
  | .attempt _ _ :: _ => false
  | _ :: rest => attemptsGuarded rest

/-- The claim that a probe never starts a sleep at an instant at which the
stop flag is already set. -/
def noSleepWhileStopped (stopAt : Nat) (tr : List PEvent) : Prop :=
  ∀ t n, PEvent.sleepSec t n ∈ tr → t < stopAt

/-! ### Helper lemmas about the probe loop -/

/-- Unfolding of the retry loop at a 429 response with retry budget left. -/
theorem checkUrlLoop_429_step (stopAt : Nat) (resp : Nat → HResp) (url f : String)
    (k retries clock : Nat) (hflag : ¬ stopAt ≤ clock)
    (hresp : resp k = HResp.ok 429 f) (hret : retries + 1 ≤ 3) :
    checkUrlLoop stopAt resp url k retries clock =
      ((checkUrlLoop stopAt resp url (k + 1) (retries + 1) (clock + 3)).1,
       .checkFlag clock false :: .attempt (clock + 1) k ::
         .sleepSec (clock + 2) (15 * (retries + 1)) ::
         (checkUrlLoop stopAt resp url (k + 1) (retries + 1) (clock + 3)).2) := by
  rw [checkUrlLoop.eq_def, if_neg hflag, hresp]
  simp only [if_pos rfl]
  rw [dif_neg (by omega)]
  simp

/-- Unfolding of the retry loop at a 429 response with the budget exhausted. -/
theorem checkUrlLoop_429_giveup (stopAt : Nat) (resp : Nat → HResp) (url f : String)
    (k retries clock : Nat) (hflag : ¬ stopAt ≤ clock)
    (hresp : resp k = HResp.ok 429 f) (hret : retries + 1 > 3) :
    checkUrlLoop stopAt resp url k retries clock =
      (none, [.checkFlag clock false, .attempt (clock + 1) k]) := by
  rw [checkUrlLoop.eq_def, if_neg hflag, hresp]
  simp only [if_pos rfl]
  rw [dif_pos hret]
  simp

/-- The sink appends of the retry loop are exactly the lines of its returned
value: one append for a `Some` result, none otherwise. -/
theorem probeAppends_checkUrlLoop (stopAt : Nat) (resp : Nat → HResp)
    (url : String) : ∀ k retries clock,
    probeAppends (checkUrlLoop stopAt resp url k retries clock).2 =
      ((checkUrlLoop stopAt resp url k retries clock).1).toList := by
  intro k retries clock
  induction k, retries, clock using checkUrlLoop.induct stopAt resp url with
  | case1 k r c h =>
    rw [checkUrlLoop.eq_def, if_pos h]; rfl
  | case2 k r c h hresp =>
    rw [checkUrlLoop.eq_def, if_neg h, hresp]; rfl
  | case3 k r c h f hgt hresp =>
    rw [checkUrlLoop_429_giveup stopAt resp url f k r c h hresp hgt]; rfl
  | case4 k r c h f hgt hresp ih =>
    rw [checkUrlLoop_429_step stopAt resp url f k r c h hresp (by omega)]
    simpa [probeAppends] using ih
  | case5 k r c h status f hresp h429 hfound =>
    rw [checkUrlLoop.eq_def, if_neg h, hresp]
    simp only [if_neg h429, if_pos hfound]
    rfl
  | case6 k r c h status f hresp h429 hfound =>
    rw [checkUrlLoop.eq_def, if_neg h, hresp]
    simp only [if_neg h429, if_neg hfound]
    rfl

/-- A `Some` result of the retry loop is the probed URL itself and comes from
an attempt whose response was status 200 at exactly that URL. -/
theorem checkUrlLoop_some (stopAt : Nat) (resp : Nat → HResp) (url : String) :
    ∀ k retries clock u,
    (checkUrlLoop stopAt resp url k retries clock).1 = some u →
    u = url ∧ ∃ j, resp j = HResp.ok 200 url := by
  intro k retries clock
  induction k, retries, clock using checkUrlLoop.induct stopAt resp url with
  | case1 k r c h =>
    intro u hu; rw [checkUrlLoop.eq_def, if_pos h] at hu; simp at hu
  | case2 k r c h hresp =>
    intro u hu; rw [checkUrlLoop.eq_def, if_neg h, hresp] at hu; simp at hu
  | case3 k r c h f hgt hresp =>
    intro u hu
    rw [checkUrlLoop_429_giveup stopAt resp url f k r c h hresp hgt] at hu
    simp at hu
  | case4 k r c h f hgt hresp ih =>
    intro u hu
    rw [checkUrlLoop_429_step stopAt resp url f k r c h hresp (by omega)] at hu
    exact ih u hu
  | case5 k r c h status f hresp h429 hfound =>
    intro u hu
    rw [checkUrlLoop.eq_def, if_neg h, hresp] at hu
    simp only [if_neg h429, if_pos hfound] at hu
    obtain ⟨h200, hf⟩ := hfound
    refine ⟨by simpa using hu.symm, k, ?_⟩
    rw [hresp, h200, hf]
  | case6 k r c h status f hresp h429 hfound =>
    intro u hu
    rw [checkUrlLoop.eq_def, if_neg h, hresp] at hu
    simp only [if_neg h429, if_neg hfound] at hu
    simp at hu

/-- Every attempt of the retry loop is immediately preceded by a cancellation
check that read `false`. -/
theorem attemptsGuarded_checkUrlLoop (stopAt : Nat) (resp : Nat → HResp)
    (url : String) : ∀ k retries clock,
    attemptsGuarded (checkUrlLoop stopAt resp url k retries clock).2 = true := by
  intro k retries clock
  induction k, retries, clock using checkUrlLoop.induct stopAt resp url with
  | case1 k r c h =>
    rw [checkUrlLoop.eq_def, if_pos h]; rfl
  | case2 k r c h hresp =>
    rw [checkUrlLoop.eq_def, if_neg h, hresp]; rfl
  | case3 k r c h f hgt hresp =>
    rw [checkUrlLoop_429_giveup stopAt resp url f k r c h hresp hgt]; rfl
  | case4 k r c h f hgt hresp ih =>
    rw [checkUrlLoop_429_step stopAt resp url f k r c h hresp (by omega)]
    simpa [attemptsGuarded] using ih
  | case5 k r c h status f hresp h429 hfound =>
    rw [checkUrlLoop.eq_def, if_neg h, hresp]
    simp only [if_neg h429, if_pos hfound]
    rfl
  | case6 k r c h status f hresp h429 hfound =>
    rw [checkUrlLoop.eq_def, if_neg h, hresp]
    simp only [if_neg h429, if_neg hfound]
    rfl

/-! ### Claim theorems about the probe (`check_url`) -/

/-- C2: for a probe attempt that receives an HTTP response (cancellation flag
unset, response `ok status finalUrl`, status not the retried 429), the
attempt's outcome is `some url` (Found) exactly when the status is 200 and the
resolved final URL string equals the requested URL string; in every other case
— in particular a 200 response whose resolved final URL differs from the
requested URL (a redirect target) — it is `none` (not found). -/
theorem c2_found_iff_exact_url (stopAt : Nat) (resp : Nat → HResp) (url : String)
    (k retries clock status : Nat) (finalUrl : String)
    (hflag : ¬ stopAt ≤ clock) (hresp : resp k = HResp.ok status finalUrl)
    (h429 : status ≠ 429) :
    (checkUrlLoop stopAt resp url k retries clock).1 =
      if status = 200 ∧ finalUrl = url then some url else none := by
  rw [checkUrlLoop.eq_def, if_neg hflag, hresp]
  simp only [if_neg h429]
  split <;> rfl

/-- Witness for C2: a 200 response resolved at a different URL (a redirect
target) is classified as not found. -/
theorem c2_found_iff_exact_url_witness :
    (¬ (5 : Nat) ≤ 0) ∧
    (checkUrlLoop 5 (fun _ => HResp.ok 200 "other") "u" 0 0 0).1 =
      (if 200 = 200 ∧ "other" = "u" then some "u" else none) :=
  ⟨by decide,
    c2_found_iff_exact_url 5 (fun _ => HResp.ok 200 "other") "u" 0 0 0 200
      "other" (by decide) rfl (by decide)⟩

/-- C3: when every attempt returns status 429, the retry loop makes exactly 4
HTTP attempts (attempt events at indices 0, 1, 2, 3: the initial attempt plus
3 retries), sleeps `15 * n` seconds before retry attempt `n` for `n = 1, 2, 3`
(the three `sleepSec` events), and then returns `none` (the no-result outcome,
not an error). -/
theorem c3_rate_limit_budget (stopAt : Nat) (resp : Nat → HResp) (url : String)
    (f : Nat → String) (hresp : ∀ k, resp k = HResp.ok 429 (f k))
    (hstop : 10 ≤ stopAt) :
    checkUrlLoop stopAt resp url 0 0 0 =
      (none,
        [.checkFlag 0 false, .attempt 1 0, .sleepSec 2 15,
         .checkFlag 3 false, .attempt 4 1, .sleepSec 5 30,
         .checkFlag 6 false, .attempt 7 2, .sleepSec 8 45,
         .checkFlag 9 false, .attempt 10 3]) := by
  rw [checkUrlLoop_429_step stopAt resp url (f 0) 0 0 0 (by omega) (hresp 0)
    (by omega)]
  rw [checkUrlLoop_429_step stopAt resp url (f 1) 1 1 3 (by omega) (hresp 1)
    (by omega)]
  rw [checkUrlLoop_429_step stopAt resp url (f 2) 2 2 6 (by omega) (hresp 2)
    (by omega)]
  rw [checkUrlLoop_429_giveup stopAt resp url (f 3) 3 3 9 (by omega) (hresp 3)
    (by omega)]

/-- Witness for C3 at a concrete all-429 transport. -/
theorem c3_rate_limit_budget_witness :
    checkUrlLoop 10 (fun _ => HResp.ok 429 "x") "u" 0 0 0 =
      (none,
        [.checkFlag 0 false, .attempt 1 0, .sleepSec 2 15,
         .checkFlag 3 false, .attempt 4 1, .sleepSec 5 30,
         .checkFlag 6 false, .attempt 7 2, .sleepSec 8 45,
         .checkFlag 9 false, .attempt 10 3]) :=
  c3_rate_limit_budget 10 (fun _ => HResp.ok 429 "x") "u" (fun _ => "x")
    (fun _ => rfl) (by decide)

/-- C5: a probe appends to the discovery sink exactly the lines of its
returned value — exactly one append, of the discovered URL itself, when the
probe returns `some`, and no append otherwise.  The append event is emitted
by the probe before it completes, hence before its outcome is delivered to
the scheduler; in the model the append is a single atomic event on the one
shared sink, which is what the `Mutex` around `VALID_LOGGER` guarantees for
concurrently running probes in the source. -/
theorem c5_sink_append_exactly_once (stopAt : Nat) (resp : Nat → HResp)
    (jitter : Nat) (template : String) (uid qnum clock : Nat) :
    probeAppends (checkUrl stopAt resp jitter template uid qnum clock).2 =
      ((checkUrl stopAt resp jitter template uid qnum clock).1).toList := by
  unfold checkUrl
  split
  · rfl
  · simpa [probeAppends] using
      probeAppends_checkUrlLoop stopAt resp (substitute template uid qnum) 0 0
        (clock + 2)

/-- C7 counterexample: with the flag set at instant 2, the probe (first
attempt gets 429 at instant 1) still begins its 15-second backoff sleep at
instant 2 — the flag is not re-checked between the 429 response and the
backoff sleep, refuting "re-checked before each sleep; if set, no further
sleeping". -/
theorem c7_counterexample :
    ¬ noSleepWhileStopped 2
      (checkUrlLoop 2 (fun _ => HResp.ok 429 "x") "u" 0 0 0).2 := by
  intro hcl
  have htr : (checkUrlLoop 2 (fun _ => HResp.ok 429 "x") "u" 0 0 0).2 =
      [.checkFlag 0 false, .attempt 1 0, .sleepSec 2 15, .checkFlag 3 true] := by
    simp [checkUrlLoop]
  have hmem : PEvent.sleepSec 2 15 ∈
      (checkUrlLoop 2 (fun _ => HResp.ok 429 "x") "u" 0 0 0).2 := by
    rw [htr]; simp
  exact absurd (hcl 2 15 hmem) (by omega)

/-- C7 amended: the cancellation flag is re-checked at probe entry (before the
pre-request jitter sleep) and immediately before every HTTP attempt, and a
flag observed set at entry aborts the probe at once with no attempt and no
sleep; but there is no re-check between a 429 response and the backoff sleep
that follows it, so a flag set during an attempt is observed only at the next
pre-attempt check, after the backoff sleep completes (see the
counterexample). -/
theorem c7_amended_checks (stopAt : Nat) (resp : Nat → HResp) (jitter : Nat)
    (template : String) (uid qnum clock : Nat) :
    (stopAt ≤ clock →
      checkUrl stopAt resp jitter template uid qnum clock =
        (none, [.checkFlag clock true])) ∧
    attemptsGuarded (checkUrl stopAt resp jitter template uid qnum clock).2 =
      true := by
  constructor
  · intro h
    unfold checkUrl
    rw [if_pos h]
  · unfold checkUrl
    split
    · rfl
    · simpa [attemptsGuarded] using
        attemptsGuarded_checkUrlLoop stopAt resp
          (substitute template uid qnum) 0 0 (clock + 2)

/-- Witness for C7 amended: immediate abandonment at entry with the flag set,
and guarded attempts on a run with the flag unset. -/
theorem c7_amended_checks_witness :
    checkUrl 0 (fun _ => HResp.err) 100 "t" 1 1 0 =
      (none, [.checkFlag 0 true]) ∧
    attemptsGuarded (checkUrl 9 (fun _ => HResp.err) 100 "t" 1 1 0).2 = true :=
  ⟨(c7_amended_checks 0 (fun _ => HResp.err) 100 "t" 1 1 0).1 (by decide),
   (c7_amended_checks 9 (fun _ => HResp.err) 100 "t" 1 1 0).2⟩

/-- C10: the probe returns `some u` only for a Found classification: `u` is
the probed URL itself, the probe appended it to the sink (exactly once), and
some attempt received status 200 at exactly that URL.  Every other terminal
outcome — cancellation observed, any status at a non-matching URL, status
≥ 400, transport error, rate-limit exhaustion — is collapsed to the single
value `none` (the return type carries no other information), so the scheduler
cannot distinguish a cancelled probe from a rejected, errored, or
rate-limit-exhausted one. -/
theorem c10_some_only_for_found (stopAt : Nat) (resp : Nat → HResp)
    (jitter : Nat) (template : String) (uid qnum clock : Nat) (u : String)
    (h : (checkUrl stopAt resp jitter template uid qnum clock).1 = some u) :
    u = substitute template uid qnum ∧
    probeAppends (checkUrl stopAt resp jitter template uid qnum clock).2 =
      [u] ∧
    ∃ j, resp j = HResp.ok 200 (substitute template uid qnum) := by
  have hmain : u = substitute template uid qnum ∧
      ∃ j, resp j = HResp.ok 200 (substitute template uid qnum) := by
    unfold checkUrl at h
    split at h
    · simp at h
    · exact checkUrlLoop_some stopAt resp (substitute template uid qnum) 0 0
        (clock + 2) u h
  have happ := c5_sink_append_exactly_once stopAt resp jitter template uid qnum
    clock
  rw [h] at happ
  exact ⟨hmain.1, by simpa using happ, hmain.2⟩

/-- Witness for C10 at a probe that finds its URL. -/
theorem c10_some_only_for_found_witness :
    ((checkUrl 9 (fun _ => HResp.ok 200 (substitute "a{uid}b{qnum}" 7 9)) 100
        "a{uid}b{qnum}" 7 9 0).1 =
      some (substitute "a{uid}b{qnum}" 7 9)) ∧
    (substitute "a{uid}b{qnum}" 7 9 = substitute "a{uid}b{qnum}" 7 9 ∧
      probeAppends (checkUrl 9
        (fun _ => HResp.ok 200 (substitute "a{uid}b{qnum}" 7 9)) 100
        "a{uid}b{qnum}" 7 9 0).2 = [substitute "a{uid}b{qnum}" 7 9] ∧
      ∃ j : Nat, HResp.ok 200 (substitute "a{uid}b{qnum}" 7 9) =
        HResp.ok 200 (substitute "a{uid}b{qnum}" 7 9)) := by
  have h : (checkUrl 9 (fun _ => HResp.ok 200 (substitute "a{uid}b{qnum}" 7 9))
      100 "a{uid}b{qnum}" 7 9 0).1 = some (substitute "a{uid}b{qnum}" 7 9) := by
    simp [checkUrl, checkUrlLoop]
  exact ⟨h, c10_some_only_for_found 9
    (fun _ => HResp.ok 200 (substitute "a{uid}b{qnum}" 7 9)) 100
    "a{uid}b{qnum}" 7 9 0 (substitute "a{uid}b{qnum}" 7 9) h⟩

/-! ### Helper lemmas about the scheduler -/

theorem underLimit_nil : underLimit [] = true := rfl

theorem underLimit_cons (e : SEvent) (tr : List SEvent) :
    underLimit (e :: tr) =
      (decide (e.countAfter ≤ MAX_CONCURRENCY) && underLimit tr) := by
  simp [underLimit]

theorem underLimit_app (a b : List SEvent) :
    underLimit (a ++ b) = (underLimit a && underLimit b) := by
  simp [underLimit, List.all_append]

/-- The number of in-flight probes after erasing the delivered one. -/
theorem length_erase_delivered (inflight : List Nat) (j : Nat)
    (h : 0 < inflight.length) :
    (inflight.eraseIdx (j % inflight.length)).length + 1 = inflight.length :=
  List.length_eraseIdx_add_one (Nat.mod_lt _ h)

/-- Events produced by the admission gate stay under the concurrency ceiling,
and when it hands control back for a push the in-flight count is strictly
below the ceiling. -/
theorem awaitBelow_spec (res : Nat → Option String) (pick : Nat → Nat) :
    ∀ inflight clock, inflight.length ≤ MAX_CONCURRENCY →
    (∀ u evs c, awaitBelow res pick inflight clock = .stop u evs c →
      underLimit evs = true) ∧
    (∀ l evs c, awaitBelow res pick inflight clock = .go l evs c →
      underLimit evs = true ∧ l.length < MAX_CONCURRENCY) := by
  intro inflight clock
  induction inflight, clock using awaitBelow.induct res pick with
  | case1 inflight clock h5 u hres =>
    intro hlen
    have hrest := length_erase_delivered inflight (pick clock)
      (by have h5' : MAX_CONCURRENCY ≤ inflight.length := h5; simp [MAX_CONCURRENCY] at h5'; omega)
    rw [awaitBelow.eq_def, dif_pos h5, hres]
    constructor
    · intro u' evs c heq
      cases heq
      simp [underLimit_cons, SEvent.countAfter, underLimit_nil]
      omega
    · intro l evs c heq
      cases heq
  | case2 inflight clock h5 hres u evs c hrec ih =>
    intro hlen
    have hrest := length_erase_delivered inflight (pick clock)
      (by have h5' : MAX_CONCURRENCY ≤ inflight.length := h5; simp [MAX_CONCURRENCY] at h5'; omega)
    have ihs := ih (by omega)
    rw [awaitBelow.eq_def, dif_pos h5, hres, hrec]
    constructor
    · intro u' evs' c' heq
      cases heq
      have h1 := ihs.1 u evs c hrec
      simp [underLimit_cons, SEvent.countAfter, h1]
      omega
    · intro l evs' c' heq
      cases heq
  | case3 inflight clock h5 hres l evs c hrec ih =>
    intro hlen
    have hrest := length_erase_delivered inflight (pick clock)
      (by have h5' : MAX_CONCURRENCY ≤ inflight.length := h5; simp [MAX_CONCURRENCY] at h5'; omega)
    have ihs := ih (by omega)
    rw [awaitBelow.eq_def, dif_pos h5, hres, hrec]
    constructor
    · intro u' evs' c' heq
      cases heq
    · intro l' evs' c' heq
      cases heq
      have h2 := ihs.2 l evs c hrec
      refine ⟨?_, h2.2⟩
      simp [underLimit_cons, SEvent.countAfter, h2.1]
      omega
  | case4 inflight clock h5 =>
    intro hlen
    rw [awaitBelow.eq_def, dif_neg h5]
    constructor
    · intro u' evs' c' heq
      cases heq
    · intro l' evs' c' heq
      cases heq
      exact ⟨rfl, by omega⟩

/-- Events produced by the drain loop stay under the concurrency ceiling. -/
theorem drainLoop_underLimit (stopAt : Nat) (res : Nat → Option String)
    (pick : Nat → Nat) : ∀ inflight clock,
    inflight.length ≤ MAX_CONCURRENCY →
    underLimit (drainLoop stopAt res pick inflight clock).2.1 = true := by
  intro inflight clock
  induction inflight, clock using drainLoop.induct stopAt res pick with
  | case1 inflight clock h0 =>
    intro hlen
    rw [drainLoop.eq_def, dif_pos h0]
    rfl
  | case2 inflight clock h0 u hres hstop =>
    intro hlen
    have hlen5 : inflight.length ≤ 5 := hlen
    have hrest := length_erase_delivered inflight (pick clock) (by omega)
    rw [drainLoop.eq_def, dif_neg h0, hres]
    simp [hstop, underLimit_cons, SEvent.countAfter, underLimit_nil,
      MAX_CONCURRENCY]
    all_goals omega
  | case3 inflight clock h0 u hres hstop =>
    intro hlen
    have hlen5 : inflight.length ≤ 5 := hlen
    have hrest := length_erase_delivered inflight (pick clock) (by omega)
    rw [drainLoop.eq_def, dif_neg h0, hres]
    simp [hstop, underLimit_cons, SEvent.countAfter, underLimit_nil,
      MAX_CONCURRENCY]
    all_goals omega
  | case4 inflight clock h0 hres hstop =>
    intro hlen
    have hlen5 : inflight.length ≤ 5 := hlen
    have hrest := length_erase_delivered inflight (pick clock) (by omega)
    rw [drainLoop.eq_def, dif_neg h0, hres]
    simp [hstop, underLimit_cons, SEvent.countAfter, underLimit_nil,
      MAX_CONCURRENCY]
    all_goals omega
  | case5 inflight clock h0 hres hstop ih =>
    intro hlen
    have hlen5 : inflight.length ≤ 5 := hlen
    have hrest := length_erase_delivered inflight (pick clock) (by omega)
    have ihs := ih (by omega)
    rw [drainLoop.eq_def, dif_neg h0, hres]
    simp [hstop, underLimit_cons, SEvent.countAfter, ihs, MAX_CONCURRENCY]
    all_goals omega

/-- Events produced by the admission loop stay under the concurrency
ceiling. -/
theorem fill_underLimit (stopAt : Nat) (res : Nat → Option String)
    (pick : Nat → Nat) : ∀ uid remaining inflight clock,
    inflight.length ≤ MAX_CONCURRENCY →
    underLimit (fill stopAt res pick uid remaining inflight clock).2.1 =
      true := by
  intro uid remaining inflight clock
  induction uid, remaining, inflight, clock using fill.induct stopAt res pick with
  | case1 uid inflight clock =>
    intro hlen
    rw [fill.eq_def, dif_pos rfl]
    exact drainLoop_underLimit stopAt res pick inflight clock hlen
  | case2 uid remaining inflight clock hr hstop =>
    intro hlen
    rw [fill.eq_def, dif_neg hr, if_pos hstop]
    have hd := drainLoop_underLimit stopAt res pick inflight (clock + 1) hlen
    simp [underLimit_cons, SEvent.countAfter, hd]
  | case3 uid remaining inflight clock hr hstop u evs c hawait =>
    intro hlen
    rw [fill.eq_def, dif_neg hr, if_neg hstop, hawait]
    have h1 := (awaitBelow_spec res pick inflight (clock + 1) hlen).1 u evs c
      hawait
    simp [underLimit_cons, SEvent.countAfter, h1]
  | case4 uid remaining inflight clock hr hstop l evs c hawait ih =>
    intro hlen
    rw [fill.eq_def, dif_neg hr, if_neg hstop, hawait]
    have h2 := (awaitBelow_spec res pick inflight (clock + 1) hlen).2 l evs c
      hawait
    have ihs := ih (by simp; omega)
    simp [underLimit_cons, underLimit_app, SEvent.countAfter, h2.1, ihs]
    have := h2.2
    simp [MAX_CONCURRENCY] at this ⊢
    omega

/-- C1: throughout a run of `find_valid_url_for_question`, the number of
in-flight probe tasks recorded at every admission and every delivery never
exceeds `MAX_CONCURRENCY` (= 5); in particular a new candidate is pushed only
after the in-flight count has dropped strictly below the limit, so the count
just after the push is still at most the limit. -/
theorem c1_concurrency_ceiling (stopAt : Nat) (res : Nat → Option String)
    (pick : Nat → Nat) (clock : Nat) :
    underLimit (findValidUrlForQuestion stopAt res pick clock).2.1 = true :=
  fill_underLimit stopAt res pick UID_START (UID_END - UID_START) [] clock
    (by simp [MAX_CONCURRENCY])

/-- The admission gate appends at most one sink record, and none at all when
it hands control back for a push. -/
theorem awaitBelow_appends (res : Nat → Option String) (pick : Nat → Nat) :
    ∀ inflight clock,
    (∀ u evs c, awaitBelow res pick inflight clock = .stop u evs c →
      (appendedUrls evs).length ≤ 1) ∧
    (∀ l evs c, awaitBelow res pick inflight clock = .go l evs c →
      appendedUrls evs = []) := by
  intro inflight clock
  induction inflight, clock using awaitBelow.induct res pick with
  | case1 inflight clock h5 u hres =>
    rw [awaitBelow.eq_def, dif_pos h5, hres]
    constructor
    · intro u' evs c heq
      cases heq
      simp [appendedUrls]
    · intro l evs c heq
      cases heq
  | case2 inflight clock h5 hres u evs c hrec ih =>
    rw [awaitBelow.eq_def, dif_pos h5, hres, hrec]
    constructor
    · intro u' evs' c' heq
      cases heq
      simpa [appendedUrls] using ih.1 u evs c hrec
    · intro l evs' c' heq
      cases heq
  | case3 inflight clock h5 hres l evs c hrec ih =>
    rw [awaitBelow.eq_def, dif_pos h5, hres, hrec]
    constructor
    · intro u' evs' c' heq
      cases heq
    · intro l' evs' c' heq
      cases heq
      simpa [appendedUrls] using ih.2 l evs c hrec
  | case4 inflight clock h5 =>
    rw [awaitBelow.eq_def, dif_neg h5]
    constructor
    · intro u' evs' c' heq
      cases heq
    · intro l' evs' c' heq
      cases heq
      rfl

/-- The drain loop appends at most one sink record. -/
theorem drainLoop_appends (stopAt : Nat) (res : Nat → Option String)
    (pick : Nat → Nat) : ∀ inflight clock,
    (appendedUrls (drainLoop stopAt res pick inflight clock).2.1).length ≤
      1 := by
  intro inflight clock
  induction inflight, clock using drainLoop.induct stopAt res pick with
  | case1 inflight clock h0 =>
    rw [drainLoop.eq_def, dif_pos h0]
    simp [appendedUrls]
  | case2 inflight clock h0 u hres hstop =>
    rw [drainLoop.eq_def, dif_neg h0, hres]
    simp [hstop, appendedUrls]
  | case3 inflight clock h0 u hres hstop =>
    rw [drainLoop.eq_def, dif_neg h0, hres]
    simp [hstop, appendedUrls]
  | case4 inflight clock h0 hres hstop =>
    rw [drainLoop.eq_def, dif_neg h0, hres]
    simp [hstop, appendedUrls]
  | case5 inflight clock h0 hres hstop ih =>
    rw [drainLoop.eq_def, dif_neg h0, hres]
    simpa [hstop, appendedUrls] using ih

/-- The admission loop appends at most one sink record. -/
theorem fill_appends (stopAt : Nat) (res : Nat → Option String)
    (pick : Nat → Nat) : ∀ uid remaining inflight clock,
    (appendedUrls
      (fill stopAt res pick uid remaining inflight clock).2.1).length ≤ 1 := by
  intro uid remaining inflight clock
  induction uid, remaining, inflight, clock using fill.induct stopAt res pick with
  | case1 uid inflight clock =>
    rw [fill.eq_def, dif_pos rfl]
    exact drainLoop_appends stopAt res pick inflight clock
  | case2 uid remaining inflight clock hr hstop =>
    rw [fill.eq_def, dif_neg hr, if_pos hstop]
    simpa [appendedUrls] using
      drainLoop_appends stopAt res pick inflight (clock + 1)
  | case3 uid remaining inflight clock hr hstop u evs c hawait =>
    rw [fill.eq_def, dif_neg hr, if_neg hstop, hawait]
    simpa [appendedUrls] using
      (awaitBelow_appends res pick inflight (clock + 1)).1 u evs c hawait
  | case4 uid remaining inflight clock hr hstop l evs c hawait ih =>
    rw [fill.eq_def, dif_neg hr, if_neg hstop, hawait]
    have hevs := (awaitBelow_appends res pick inflight (clock + 1)).2 l evs c
      hawait
    simp only [appendedUrls] at hevs
    simpa [appendedUrls, hevs] using ih

/-- C6: in one run of the scheduler for one outer key
(`find_valid_url_for_question`), at most one record is appended to the
discovery sink, even though up to `MAX_CONCURRENCY` probes are in flight
simultaneously: a probe's append coincides with the delivery of its `Some`
result (the probes are polled inline by `FuturesUnordered`, not spawned), and
the scheduler returns at the first delivered `Some`, dropping the remaining
futures unrun. -/
theorem c6_at_most_one_discovery_per_question (stopAt : Nat)
    (res : Nat → Option String) (pick : Nat → Nat) (clock : Nat) :
    (appendedUrls
      (findValidUrlForQuestion stopAt res pick clock).2.1).length ≤ 1 :=
  fill_appends stopAt res pick UID_START (UID_END - UID_START) [] clock

/-- The drain loop never admits a candidate. -/
theorem drainLoop_no_admissions (stopAt : Nat) (res : Nat → Option String)
    (pick : Nat → Nat) : ∀ inflight clock,
    admittedUids (drainLoop stopAt res pick inflight clock).2.1 = [] := by
  intro inflight clock
  induction inflight, clock using drainLoop.induct stopAt res pick with
  | case1 inflight clock h0 =>
    rw [drainLoop.eq_def, dif_pos h0]
    rfl
  | case2 inflight clock h0 u hres hstop =>
    rw [drainLoop.eq_def, dif_neg h0, hres]
    simp [hstop, admittedUids]
  | case3 inflight clock h0 u hres hstop =>
    rw [drainLoop.eq_def, dif_neg h0, hres]
    simp [hstop, admittedUids]
  | case4 inflight clock h0 hres hstop =>
    rw [drainLoop.eq_def, dif_neg h0, hres]
    simp [hstop, admittedUids]
  | case5 inflight clock h0 hres hstop ih =>
    rw [drainLoop.eq_def, dif_neg h0, hres]
    simpa [hstop, admittedUids] using ih

/-- C4 counterexample: run the scheduler with the flag set at instant 6, when
probes for uids 10000, 10001, 10002 have been admitted and are in flight.
The scheduler admits nothing further, but instead of awaiting the completion
of every in-flight probe it delivers only one result (uid 10000) and then
returns, dropping the probes for 10001 and 10002 unresolved — they are never
classified, refuting "awaits completion of every already-admitted in-flight
probe". -/
theorem c4_counterexample :
    (findValidUrlForQuestion 6 (fun _ => none) (fun _ => 0) 0).1 =
      SOutcome.cancelled [10001, 10002] ∧
    admittedUids
      (findValidUrlForQuestion 6 (fun _ => none) (fun _ => 0) 0).2.1 =
      [10000, 10001, 10002] ∧
    deliveredUids
      (findValidUrlForQuestion 6 (fun _ => none) (fun _ => 0) 0).2.1 =
      [10000] := by
  refine ⟨?_, ?_, ?_⟩ <;>
    simp [findValidUrlForQuestion, fill, drainLoop, awaitBelow, UID_START,
      UID_END, MAX_CONCURRENCY, admittedUids, deliveredUids]

/-- C4 amended: once the cancellation flag is set, (a) the scheduler admits no
further candidate after the flag is observed at the admission check — the run
continues directly into the drain loop, which never admits; and (b) in the
drain loop with probes in flight and the flag set, exactly one further
completion is delivered (and still classified: a `Some` delivery has its sink
append) and then the scheduler returns `cancelled`, dropping the remaining
in-flight probes without classifying them. -/
theorem c4_amended_cancel_drops_inflight (stopAt : Nat)
    (res : Nat → Option String) (pick : Nat → Nat) :
    (∀ uid remaining inflight clock, stopAt ≤ clock →
      admittedUids
        (fill stopAt res pick uid remaining inflight clock).2.1 = []) ∧
    (∀ inflight clock, inflight ≠ [] → stopAt ≤ clock + 1 →
      (drainLoop stopAt res pick inflight clock).1 =
        SOutcome.cancelled
          (inflight.eraseIdx (pick clock % inflight.length)) ∧
      (deliveredUids (drainLoop stopAt res pick inflight clock).2.1).length =
        1) := by
  constructor
  · intro uid remaining inflight clock hstop
    rw [fill.eq_def]
    split
    · exact drainLoop_no_admissions stopAt res pick inflight clock
    · simpa [admittedUids] using
        drainLoop_no_admissions stopAt res pick inflight (clock + 1)
  · intro inflight clock hne hstop
    have h0 : ¬ inflight.length = 0 := by
      simpa using fun h => hne (List.length_eq_zero.mp h)
    rw [drainLoop.eq_def, dif_neg h0]
    cases hres : res (inflight.getD (pick clock % inflight.length) 0) with
    | some u =>
      constructor
      · simp [show stopAt ≤ clock + 2 by omega]
      · simp [deliveredUids, show stopAt ≤ clock + 2 by omega]
    | none =>
      constructor
      · simp [hstop]
      · simp [deliveredUids, hstop]

/-- Witness for C4 amended: flag set at instant 0; the admission loop admits
nothing, and a drain step over one in-flight probe delivers it and returns
`cancelled` with nothing left. -/
theorem c4_amended_cancel_drops_inflight_witness :
    admittedUids
      (fill 0 (fun _ => none) (fun _ => 0) 10000 70000 [] 0).2.1 = [] ∧
    (drainLoop 0 (fun _ => none) (fun _ => 0) [7] 0).1 =
      SOutcome.cancelled ([7].eraseIdx ((fun _ : Nat => 0) 0 % [7].length)) ∧
    (deliveredUids (drainLoop 0 (fun _ => none) (fun _ => 0) [7] 0).2.1).length
      = 1 :=
  ⟨(c4_amended_cancel_drops_inflight 0 (fun _ => none) (fun _ => 0)).1
      10000 70000 [] 0 (by omega),
   (c4_amended_cancel_drops_inflight 0 (fun _ => none) (fun _ => 0)).2
      [7] 0 (by decide) (by omega)⟩

/-! ### The discovery sink -/

/-- Once the sink file exists, appends only extend its lines. -/
theorem foldl_appendSink_some (l : List String) : ∀ acc,
    l.foldl appendSink (some acc) = some (acc ++ l) := by
  induction l with
  | nil => intro acc; simp
  | cons u l ih =>
    intro acc
    simp [appendSink, ih (acc ++ [u])]

/-- The sink file after a trace: never created when there is no append,
otherwise created at the first append (truncating nothing that the run
itself wrote) and holding exactly the appended URLs in order. -/
theorem sinkAfter_eq (tr : List SEvent) :
    sinkAfter tr =
      if appendedUrls tr = [] then none else some (appendedUrls tr) := by
  unfold sinkAfter
  cases h : appendedUrls tr with
  | nil => simp
  | cons u l =>
    simp [appendSink, foldl_appendSink_some]

/-- C8 counterexample: a complete process run (cancellation requested before
the first outer-key check, hence zero probes and zero discoveries) terminates
with the sink file never created — `VALID_LOGGER` is `Lazy` and
`File::create` runs only on first use, refuting "created fresh at process
start, truncating any prior contents". -/
theorem c8_counterexample :
    sinkAfter (mainRun 0 (fun _ _ => none) (fun _ => 0) 1).1 = none ∧
    (mainRun 0 (fun _ _ => none) (fun _ => 0) 1).1 =
      [SEvent.checkFlag 0 true] := by
  constructor <;> rfl

/-- C8 amended: the sink is a plain-text file created fresh (truncating any
prior contents) at the first discovery — not at process start — and from then
on only appended to, one discovered URL per line: after any complete run the
file is absent when nothing was discovered, and otherwise holds exactly the
appended URLs in order. -/
theorem c8_amended_lazy_sink (stopAt : Nat) (res : Nat → Nat → Option String)
    (pick : Nat → Nat) (startQnum : Nat) :
    sinkAfter (mainRun stopAt res pick startQnum).1 =
      if appendedUrls (mainRun stopAt res pick startQnum).1 = [] then none
      else some (appendedUrls (mainRun stopAt res pick startQnum).1) :=
  sinkAfter_eq (mainRun stopAt res pick startQnum).1

/-! ### Helper lemmas about prefixes and contiguous occurrences -/

theorem prefixNil (l : List Char) : [] <+: l := ⟨l, rfl⟩

theorem consPrefixCons {a b : Char} {l m : List Char} :
    (a :: l) <+: (b :: m) ↔ a = b ∧ l <+: m := by
  constructor
  · rintro ⟨t, ht⟩
    injection ht with h1 h2
    exact ⟨h1, t, h2⟩
  · rintro ⟨rfl, t, ht⟩
    exact ⟨t, by rw [List.cons_append, ht]⟩

theorem notInfixNil {a : Char} {l : List Char} :
    ¬ (a :: l) <:+: ([] : List Char) := by
  rintro ⟨s, t, h⟩
  simp at h

theorem infixConsElim {pat : List Char} {c : Char} {tl : List Char}
    (h : pat <:+: c :: tl) : pat <+: c :: tl ∨ pat <:+: tl := by
  obtain ⟨s, t, hst⟩ := h
  cases s with
  | nil =>
    left
    exact ⟨t, by simpa using hst⟩
  | cons x s' =>
    right
    injection hst with h1 h2
    exact ⟨s', t, h2⟩

theorem prefixOcc {l m : List Char} (h : l <+: m) : l <:+: m := by
  obtain ⟨t, ht⟩ := h
  exact ⟨[], t, by simpa using ht⟩

theorem infixCons {pat : List Char} {c : Char} {rest : List Char}
    (h : pat <:+: rest) : pat <:+: c :: rest := by
  obtain ⟨x, t, hxt⟩ := h
  exact ⟨c :: x, t, by simp only [List.cons_append]; rw [hxt]⟩

/-- An occurrence of `p :: pt` inside `a ++ b` whose head letter does not
occur in `a` is an occurrence inside `b`. -/
theorem spanElim {p : Char} {pt : List Char} : ∀ {a b : List Char},
    p ∉ a → (p :: pt) <:+: a ++ b → (p :: pt) <:+: b := by
  intro a
  induction a with
  | nil =>
    intro b _ h
    simpa using h
  | cons x a' ih =>
    intro b hp h
    rcases infixConsElim h with hpre | hinf
    · obtain ⟨rfl, _⟩ := consPrefixCons.mp hpre
      exact absurd (List.mem_cons_self _ _) hp
    · exact ih (fun hm => hp (List.mem_cons_of_mem _ hm)) hinf

theorem infixOfDrop {pat : List Char} {n : Nat} {s : List Char}
    (h : pat <:+: s.drop n) : pat <:+: s := by
  obtain ⟨x, t, hxt⟩ := h
  refine ⟨s.take n ++ x, t, ?_⟩
  simp only [List.append_assoc] at hxt ⊢
  rw [hxt, List.take_append_drop]

theorem isPrefixOfIff : ∀ (l₁ l₂ : List Char),
    l₁.isPrefixOf l₂ = true ↔ l₁ <+: l₂ := by
  intro l₁
  induction l₁ with
  | nil =>
    intro l₂
    constructor
    · intro _
      exact prefixNil l₂
    · intro _
      cases l₂ <;> rfl
  | cons a l ih =>
    intro l₂
    cases l₂ with
    | nil =>
      constructor
      · intro h
        exact absurd h (by simp [List.isPrefixOf])
      · rintro ⟨t, ht⟩
        simp at ht
    | cons b m =>
      rw [List.isPrefixOf, Bool.and_eq_true, beq_iff_eq, ih m, consPrefixCons]

/-! ### The replacement never leaves and never creates a placeholder -/

/-- A pattern-free word (no letter of it occurs in the replacement) that is a
prefix of the replaced string was already a prefix of the original string. -/
theorem replaceAllPrefixReflect (p : Char) (pt repl : List Char)
    (hne : repl ≠ []) :
    ∀ (n : Nat) (s : List Char), s.length ≤ n → ∀ q : List Char,
      (∀ c ∈ repl, c ∉ q) → q <+: replaceAll p pt repl s → q <+: s := by
  intro n
  induction n with
  | zero =>
    intro s hs q hq hpre
    have hs0 : s = [] := List.length_eq_zero.mp (Nat.le_zero.mp hs)
    subst hs0
    simpa [replaceAll] using hpre
  | succ n ih =>
    intro s hs q hq hpre
    cases s with
    | nil =>
      simpa [replaceAll] using hpre
    | cons c rest =>
      rw [replaceAll] at hpre
      split at hpre
      · cases q with
        | nil => exact prefixNil _
        | cons q0 q' =>
          cases repl with
          | nil => exact absurd rfl hne
          | cons r0 repl' =>
            rw [List.cons_append] at hpre
            obtain ⟨rfl, _⟩ := consPrefixCons.mp hpre
            exact absurd (List.mem_cons_self q0 q')
              (hq q0 (List.mem_cons_self q0 repl'))
      · cases q with
        | nil => exact prefixNil _
        | cons q0 q' =>
          obtain ⟨rfl, hq'⟩ := consPrefixCons.mp hpre
          have hrest : rest.length ≤ n := by
            simp at hs
            omega
          have hq'sub : ∀ ch ∈ repl, ch ∉ q' := fun ch hch hmem =>
            hq ch hch (List.mem_cons_of_mem _ hmem)
          exact consPrefixCons.mpr ⟨rfl, ih rest hrest q' hq'sub hq'⟩

/-- After replacing every occurrence of `p :: pt` by a nonempty replacement
that contains neither `p` nor any letter of `pt`, no occurrence of `p :: pt`
remains. -/
theorem replaceAllNoOccur (p : Char) (pt repl : List Char) (hne : repl ≠ [])
    (hp : p ∉ repl) (hq : ∀ c ∈ repl, c ∉ pt) :
    ∀ (n : Nat) (s : List Char), s.length ≤ n →
      ¬ (p :: pt) <:+: replaceAll p pt repl s := by
  intro n
  induction n with
  | zero =>
    intro s hs
    have hs0 : s = [] := List.length_eq_zero.mp (Nat.le_zero.mp hs)
    subst hs0
    simp [replaceAll]
  | succ n ih =>
    intro s hs
    cases s with
    | nil =>
      simp [replaceAll]
    | cons c rest =>
      intro hinf
      rw [replaceAll] at hinf
      split at hinf
      · have h2 := spanElim hp hinf
        have hd : (rest.drop pt.length).length ≤ n := by
          simp at hs ⊢
          omega
        exact ih (rest.drop pt.length) hd h2
      · rcases infixConsElim hinf with hpre | hinf'
        · obtain ⟨hpc, hpt⟩ := consPrefixCons.mp hpre
          have hptrest := replaceAllPrefixReflect p pt repl hne rest.length
            rest le_rfl pt hq hpt
          rename_i hmatch
          exact hmatch ((isPrefixOfIff _ _).mpr
            (consPrefixCons.mpr ⟨hpc, hptrest⟩))
        · have hrest : rest.length ≤ n := by
            simp at hs
            omega
          exact ih rest hrest hinf'

/-- Replacing occurrences of one placeholder by a replacement that contains
neither the head letter nor any tail letter of another placeholder cannot
create an occurrence of that other placeholder. -/
theorem replaceAllNoCreate (p2 : Char) (pt2 repl2 : List Char) (p1 : Char)
    (pt1 : List Char) (hne : repl2 ≠ []) (hp1 : p1 ∉ repl2)
    (hq : ∀ c ∈ repl2, c ∉ pt1) :
    ∀ (n : Nat) (s : List Char), s.length ≤ n →
      ¬ (p1 :: pt1) <:+: s →
      ¬ (p1 :: pt1) <:+: replaceAll p2 pt2 repl2 s := by
  intro n
  induction n with
  | zero =>
    intro s hs _
    have hs0 : s = [] := List.length_eq_zero.mp (Nat.le_zero.mp hs)
    subst hs0
    simp [replaceAll]
  | succ n ih =>
    intro s hs hnos
    cases s with
    | nil =>
      simp [replaceAll]
    | cons c rest =>
      intro hinf
      rw [replaceAll] at hinf
      split at hinf
      · have h2 := spanElim hp1 hinf
        have hd : (rest.drop pt2.length).length ≤ n := by
          simp at hs ⊢
          omega
        have hnod : ¬ (p1 :: pt1) <:+: rest.drop pt2.length := fun hh =>
          hnos (infixCons (infixOfDrop hh))
        exact ih (rest.drop pt2.length) hd hnod h2
      · rcases infixConsElim hinf with hpre | hinf'
        · obtain ⟨hpc, hpt⟩ := consPrefixCons.mp hpre
          have hptrest := replaceAllPrefixReflect p2 pt2 repl2 hne rest.length
            rest le_rfl pt1 hq hpt
          exact hnos (prefixOcc (consPrefixCons.mpr ⟨hpc, hptrest⟩))
        · have hrest : rest.length ≤ n := by
            simp at hs
            omega
          exact ih rest hrest (fun hh => hnos (infixCons hh)) hinf'

/-! ### Decimal renderings are digit strings -/

theorem digitChar_isDigit {k : Nat} (h : k < 10) :
    (Nat.digitChar k).isDigit = true := by
  interval_cases k <;> decide

theorem natDigitsAux_isDigit : ∀ (fuel n : Nat) (acc : List Char),
    (∀ c ∈ acc, c.isDigit = true) →
    ∀ c ∈ natDigitsAux fuel n acc, c.isDigit = true := by
  intro fuel
  induction fuel with
  | zero =>
    intro n acc hacc c hc
    exact hacc c hc
  | succ fuel ih =>
    intro n acc hacc c hc
    rw [natDigitsAux] at hc
    split at hc
    · rcases List.mem_cons.mp hc with rfl | hmem
      · exact digitChar_isDigit (by omega)
      · exact hacc c hmem
    · refine ih (n / 10) (Nat.digitChar (n % 10) :: acc) ?_ c hc
      intro ch hch
      rcases List.mem_cons.mp hch with rfl | hmem
      · exact digitChar_isDigit (Nat.mod_lt _ (by omega))
      · exact hacc ch hmem

theorem natDigits_isDigit (n : Nat) : ∀ c ∈ natDigits n, c.isDigit = true :=
  natDigitsAux_isDigit (n + 1) n [] (by simp)

theorem natDigitsAux_len : ∀ (fuel n : Nat) (acc : List Char),
    acc.length ≤ (natDigitsAux fuel n acc).length := by
  intro fuel
  induction fuel with
  | zero =>
    intro n acc
    simp [natDigitsAux]
  | succ fuel ih =>
    intro n acc
    rw [natDigitsAux]
    split
    · simp
    · have := ih (n / 10) (Nat.digitChar (n % 10) :: acc)
      simp at this
      omega

theorem natDigits_ne_nil (n : Nat) : natDigits n ≠ [] := by
  rw [natDigits, natDigitsAux]
  split
  · simp
  · intro h
    have := natDigitsAux_len n (n / 10) [Nat.digitChar (n % 10)]
    rw [h] at this
    simp at this

theorem isDigit_ne_lbrace {c : Char} (h : c.isDigit = true) : c ≠ '{' := by
  intro hh
  subst hh
  exact absurd h (by decide)

theorem isDigit_not_mem_uidPat {c : Char} (h : c.isDigit = true) :
    c ∉ uidPat := by
  intro hm
  simp [uidPat] at hm
  rcases hm with rfl | rfl | rfl | rfl <;> exact absurd h (by decide)

theorem isDigit_not_mem_qnumPat {c : Char} (h : c.isDigit = true) :
    c ∉ qnumPat := by
  intro hm
  simp [qnumPat] at hm
  rcases hm with rfl | rfl | rfl | rfl | rfl <;> exact absurd h (by decide)

/-- C9: for every URL template and every candidate key within the configured
bounds, the substitution — which replaces every occurrence of the two
placeholder tokens by the decimal renderings of the ids, as a pure function
of template and key — produces a string in which neither placeholder token
occurs any more. -/
theorem c9_substitution_leaves_no_placeholder (template : String)
    (uid qnum : Nat) (h1 : UID_START ≤ uid) (h2 : uid < UID_END)
    (h3 : 1 ≤ qnum) (h4 : qnum ≤ QUESTION_COUNT) :
    ¬ ('{' :: uidPat) <:+: (substitute template uid qnum).data ∧
    ¬ ('{' :: qnumPat) <:+: (substitute template uid qnum).data := by
  have hud := natDigits_isDigit uid
  have hqd := natDigits_isDigit qnum
  have hu_nb : '{' ∉ natDigits uid := fun hm =>
    isDigit_ne_lbrace (hud _ hm) rfl
  have hq_nb : '{' ∉ natDigits qnum := fun hm =>
    isDigit_ne_lbrace (hqd _ hm) rfl
  have hu_uid : ∀ c ∈ natDigits uid, c ∉ uidPat := fun c hc =>
    isDigit_not_mem_uidPat (hud c hc)
  have hq_uid : ∀ c ∈ natDigits qnum, c ∉ uidPat := fun c hc =>
    isDigit_not_mem_uidPat (hqd c hc)
  have hq_qnum : ∀ c ∈ natDigits qnum, c ∉ qnumPat := fun c hc =>
    isDigit_not_mem_qnumPat (hqd c hc)
  have step1 : ¬ ('{' :: uidPat) <:+:
      replaceAll '{' uidPat (natDigits uid) template.data :=
    replaceAllNoOccur '{' uidPat (natDigits uid) (natDigits_ne_nil uid) hu_nb
      hu_uid template.data.length template.data le_rfl
  constructor
  · exact replaceAllNoCreate '{' qnumPat (natDigits qnum) '{' uidPat
      (natDigits_ne_nil qnum) hq_nb hq_uid
      (replaceAll '{' uidPat (natDigits uid) template.data).length
      (replaceAll '{' uidPat (natDigits uid) template.data) le_rfl step1
  · exact replaceAllNoOccur '{' qnumPat (natDigits qnum)
      (natDigits_ne_nil qnum) hq_nb hq_qnum
      (replaceAll '{' uidPat (natDigits uid) template.data).length
      (replaceAll '{' uidPat (natDigits uid) template.data) le_rfl

/-- Witness for C9 at a concrete template and in-bounds key. -/
theorem c9_substitution_leaves_no_placeholder_witness :
    ¬ ('{' :: uidPat) <:+:
      (substitute "https://e/{uid}-q-{qnum}/" 10000 1).data ∧
    ¬ ('{' :: qnumPat) <:+:
      (substitute "https://e/{uid}-q-{qnum}/" 10000 1).data :=
  c9_substitution_leaves_no_placeholder "https://e/{uid}-q-{qnum}/" 10000 1
    (by decide) (by decide) (by decide) (by decide)

end UrlGetter
